import Mathlib

/-!
Verification of the query-admission, route-classification, chain-table
rewriting and column-decoding core of `sandworm_api` (`src/utils.rs`),
as a shallow embedding in Lean.

Modelling conventions:
* Rust `String`/`&str` values are Lean `String`s, processed as `List Char`.
  `str::to_uppercase` is modelled per-character with `Char.toUpper` and
  `str::contains` as substring containment on character lists; both agree
  with Rust on ASCII text, which is the domain of every denylist entry and
  chain namespace.
* The regex `\b([a-zA-Z0-9_]+)\.([a-zA-Z0-9_]+)\b` used by
  `flatten_known_chain_tables`, together with `Regex::replace_all`'s
  left-to-right non-overlapping scan, is embedded directly as the
  deterministic state machine `scanA` below.  The word class and the word
  boundary are the ASCII class `[a-zA-Z0-9_]` written in the pattern.
* Fallible driver calls (`sqlx::Row::try_get`) are modelled as
  `Except String (Option _)` valued getters of an abstract row: `error`
  is a driver/decode failure, `ok none` is SQL NULL, `ok (some v)` is a
  decoded value.  Floating point and chrono values are abstracted to
  carriers that only support the operations the source applies to them.
* `serde_json::Value` is the inductive `Json`; serde's compact rendering
  of the one-key error object built by `json_response` is modelled by
  `renderErrorObj`.
-/

/-- Character-wise uppercasing; models `str::to_uppercase` (exact on ASCII). -/
def toUpperStr (s : String) : String := String.mk (s.data.map Char.toUpper)

/-- Substring containment on the underlying character lists; models
`str::contains` for string needles. -/
def strContains (hay needle : String) : Bool :=
  hay.data.tails.any (fun t => needle.data.isPrefixOf t)

/-- The denylist of `is_query_only`, verbatim from the source (including the
duplicated "USER" entry and the lowercase entries). -/
def blacklist : List String :=
  ["INSERT", "UPDATE", "DELETE", "CREATE", "DROP", "ALTER", "TRUNCATE",
   "REPLACE", "GRANT", "REVOKE", "SHOW", "USER", "SET", "EXECUTE", "CALL",
   "COPY",
   "current_database()", "current_user()", "session_user()",
   "inet_client_addr()", "inet_server_addr()", "version()",
   "pg_backend_pid()", "pg_postmaster_start_time()", "pg_current_xact_id()",
   "pg_is_in_recovery()", "txid_current()", "pg_size_pretty()",
   "USER",
   "search_path", "client_encoding", "DateStyle", "TimeZone",
   "application_name", "server_version", "is_superuser",
   "session_authorization", "standard_conforming_strings",
   "transaction_isolation", "statement_timeout", "lock_timeout",
   "idle_in_transaction_session_timeout", "max_connections",
   "shared_buffers", "work_mem", "maintenance_work_mem",
   "effective_cache_size", "log_min_duration_statement", "log_statement"]

/-- Embedding of `is_query_only`:
`let upper = sql.to_uppercase(); BLACKLIST.iter().any(|kw| upper.contains(kw))`.
Note the source returns the containment test itself (true when a denylisted
substring is present); there is no negation. -/
def is_query_only (sql : String) : Bool :=
  let upper := toUpperStr sql
  blacklist.any (fun kw => strContains upper kw)

/-- Embedding of `is_sui_rpc_query`. -/
def is_sui_rpc_query (query : String) : Bool :=
  let upper := toUpperStr query
  (["SUI", "SUITEST", "SUIDEV"]).any (fun target => strContains upper target)

/-- Single-marker classifier written from the observation that "SUITEST" and
"SUIDEV" both contain "SUI"; comparison definition for the refinement
claim about `is_sui_rpc_query`. -/
def is_sui_rpc_single (query : String) : Bool :=
  strContains (toUpperStr query) "SUI"

/-- The ASCII word class `[a-zA-Z0-9_]` of the rewriter's regex. -/
def isWordChar (c : Char) : Bool :=
  ('a' ≤ c && c ≤ 'z') || ('A' ≤ c && c ≤ 'Z') || ('0' ≤ c && c ≤ '9') || c == '_'

/-- The closed chain-namespace set of `flatten_known_chain_tables`, verbatim. -/
def knownChains : List String :=
  ["sui", "suidev", "suitest",
   "eth", "sepolia", "arb", "base", "blast", "op", "poly", "mycelium", "mnt",
   "zks", "taiko", "celo", "avax", "scroll", "bnb", "linea", "zora", "glmr",
   "movr", "ron", "ftm", "kava", "gno", "mekong", "mina"]

/-- Membership test of the `known_chains` set (exact, case-sensitive equality,
as `HashSet::contains` on `&str`). -/
def isKnownChain (chain : List Char) : Bool :=
  knownChains.any (fun k => k.data == chain)

/-- Replacement performed on one regex match: `format!("{}_{}", chain, table)`
when the chain is known, otherwise `caps[0].to_string()` (the match verbatim). -/
def renderMatch (r1 r2 : List Char) : List Char :=
  if isKnownChain r1 then r1 ++ '_' :: r2 else r1 ++ '.' :: r2

/-- Scanner state of the embedded regex engine for
`\b([a-zA-Z0-9_]+)\.([a-zA-Z0-9_]+)\b`:
either between candidates (tracking whether the previous character was a word
character, for the leading word boundary), or inside the first identifier,
just past the dot, or inside the second identifier of a candidate match. -/
inductive ScanState where
  | idle (prevWord : Bool)
  | run1 (acc : List Char)
  | dotSt (r1 : List Char)
  | run2 (r1 acc : List Char)

/-- One left-to-right pass of `Regex::replace_all` with the source's pattern
and replacement closure.  A candidate starts at a word character preceded by a
non-word character (or the start); the first `[a-zA-Z0-9_]+` is consumed
greedily, must be followed by a literal dot and a nonempty second word run,
and the trailing boundary always holds at the end of a maximal word run.
Failed candidates are emitted verbatim and, as in the engine, no new match can
start inside them (every interior position lacks the leading boundary). -/
def scanA : ScanState → List Char → List Char
  | .idle _, [] => []
  | .idle pw, c :: cs =>
      if isWordChar c then
        if pw then c :: scanA (.idle true) cs
        else scanA (.run1 [c]) cs
      else c :: scanA (.idle false) cs
  | .run1 acc, [] => acc
  | .run1 acc, c :: cs =>
      if isWordChar c then scanA (.run1 (acc ++ [c])) cs
      else if c = '.' then scanA (.dotSt acc) cs
      else acc ++ c :: scanA (.idle false) cs
  | .dotSt r1, [] => r1 ++ ['.']
  | .dotSt r1, c :: cs =>
      if isWordChar c then scanA (.run2 r1 [c]) cs
      else r1 ++ '.' :: c :: scanA (.idle false) cs
  | .run2 r1 acc, [] => renderMatch r1 acc
  | .run2 r1 acc, c :: cs =>
      if isWordChar c then scanA (.run2 r1 (acc ++ [c])) cs
      else renderMatch r1 acc ++ c :: scanA (.idle false) cs

/-- Embedding of `flatten_known_chain_tables`. -/
def flatten_known_chain_tables (sql : String) : String :=
  String.mk (scanA (.idle false) sql.data)

/-- Decomposition of a scan into literal characters and matches; analysis
companion of `scanA` (not part of the source translation). -/
inductive Piece where
  | lit (c : Char)
  | mtch (r1 r2 : List Char)

/-- Source text covered by a piece. -/
def srcP : Piece → List Char
  | .lit c => [c]
  | .mtch r1 r2 => r1 ++ '.' :: r2

/-- Output text produced for a piece. -/
def outP : Piece → List Char
  | .lit c => [c]
  | .mtch r1 r2 => renderMatch r1 r2

/-- Concatenation of the source text of a piece list. -/
def flatSrc : List Piece → List Char
  | [] => []
  | p :: ps => srcP p ++ flatSrc ps

/-- Concatenation of the output text of a piece list. -/
def flatOut : List Piece → List Char
  | [] => []
  | p :: ps => outP p ++ flatOut ps

/-- Piece-level version of `scanA`: same scan, but recording the decomposition
instead of the rewritten text. -/
def piecesA : ScanState → List Char → List Piece
  | .idle _, [] => []
  | .idle pw, c :: cs =>
      if isWordChar c then
        if pw then .lit c :: piecesA (.idle true) cs
        else piecesA (.run1 [c]) cs
      else .lit c :: piecesA (.idle false) cs
  | .run1 acc, [] => acc.map .lit
  | .run1 acc, c :: cs =>
      if isWordChar c then piecesA (.run1 (acc ++ [c])) cs
      else if c = '.' then piecesA (.dotSt acc) cs
      else (acc ++ [c]).map .lit ++ piecesA (.idle false) cs
  | .dotSt r1, [] => (r1 ++ ['.']).map .lit
  | .dotSt r1, c :: cs =>
      if isWordChar c then piecesA (.run2 r1 [c]) cs
      else (r1 ++ '.' :: [c]).map .lit ++ piecesA (.idle false) cs
  | .run2 r1 acc, [] => [.mtch r1 acc]
  | .run2 r1 acc, c :: cs =>
      if isWordChar c then piecesA (.run2 r1 (acc ++ [c])) cs
      else .mtch r1 acc :: .lit c :: piecesA (.idle false) cs

/-- Source text already consumed into a scanner state. -/
def stateSrc : ScanState → List Char
  | .idle _ => []
  | .run1 acc => acc
  | .dotSt r1 => r1 ++ ['.']
  | .run2 r1 acc => r1 ++ '.' :: acc

/-- Start positions and captured identifiers of the matches of a piece list,
with `p` the position of the first piece. -/
def matchesOfPieces : Nat → List Piece → List (Nat × List Char × List Char)
  | _, [] => []
  | p, .lit _ :: ps => matchesOfPieces (p + 1) ps
  | p, .mtch r1 r2 :: ps =>
      (p, r1, r2) :: matchesOfPieces (p + (r1.length + 1 + r2.length)) ps

/-- The matches (position, chain candidate, table candidate) the rewriter's
scan finds in a string. -/
def matchList (s : String) : List (Nat × List Char × List Char) :=
  matchesOfPieces 0 (piecesA (.idle false) s.data)

/-- True when a list does not start with a word character (used to state that
a candidate match is followed by a boundary). -/
def headNotWord : List Char → Bool
  | [] => true
  | c :: _ => !isWordChar c

/-- Abstract carrier for `f32`/`f64` values; the decoder never inspects them. -/
structure FloatVal where
  bits : Nat
deriving DecidableEq

/-- Abstract `chrono::NaiveDate`, carrying only its `Display` rendering. -/
structure NaiveDate where
  repr : String
deriving DecidableEq

/-- Abstract `chrono::NaiveTime`, carrying only its `Display` rendering. -/
structure NaiveTime where
  repr : String
deriving DecidableEq

/-- Abstract `chrono::NaiveDateTime`, carrying only its `Display` rendering. -/
structure NaiveDateTime where
  repr : String
deriving DecidableEq

/-- Abstract `chrono::DateTime<Utc>`, carrying only its `to_rfc3339` rendering. -/
structure DateTimeUtc where
  rfc3339 : String
deriving DecidableEq

/-- Model of `serde_json::Value`.  Integral and floating numbers are kept as
separate constructors of the embedding. -/
inductive Json where
  | null
  | bool (b : Bool)
  | int (n : Int)
  | float (f : FloatVal)
  | str (s : String)
  | arr (xs : List Json)
  | obj (fields : List (String × Json))

/-- Model of a `sqlx::postgres::PgRow`: one fallible typed getter per Rust
type the decoder ever requests via `try_get::<Option<T>, _>(i)`.  `error` is
a driver/decode failure, `ok none` is SQL NULL. -/
structure PgRow where
  getInt32 : Nat → Except String (Option Int)
  getInt64 : Nat → Except String (Option Int)
  getFloat32 : Nat → Except String (Option FloatVal)
  getFloat64 : Nat → Except String (Option FloatVal)
  getStr : Nat → Except String (Option String)
  getBool : Nat → Except String (Option Bool)
  getBytes : Nat → Except String (Option (List Nat))
  getJson : Nat → Except String (Option Json)
  getDate : Nat → Except String (Option NaiveDate)
  getTime : Nat → Except String (Option NaiveTime)
  getTimestamp : Nat → Except String (Option NaiveDateTime)
  getTimestamptz : Nat → Except String (Option DateTimeUtc)
  getInt32Array : Nat → Except String (Option (List Int))

/-- Models `Result::ok()`. -/
def resOk {ε α : Type} : Except ε α → Option α
  | .ok a => some a
  | .error _ => none

/-- Models `json!(opt)` for an `Option` payload: `None` serializes to null. -/
def optJson {α : Type} (f : α → Json) : Option α → Json
  | none => Json.null
  | some a => f a

/-- Models the date/time branches
`try_get(..).map(|opt| opt.map(|v| json!(..)).unwrap_or(json!(null))).unwrap_or(json!(null))`. -/
def resultOptJson {α : Type} (f : α → Json) : Except String (Option α) → Json
  | .ok o => optJson f o
  | .error _ => Json.null

/-- Models the default branch
`let val: Result<Option<String>, _> = row.try_get(i); val.map(|v| json!(v)).unwrap_or(json!(null))`. -/
def resultJson : Except String (Option String) → Json
  | .ok o => optJson Json.str o
  | .error _ => Json.null

/-- Standard base64 alphabet used by `base64::encode`. -/
def base64Alphabet : List Char :=
  "ABCDEFGHIJKLMNOPQRSTUVWXYZabcdefghijklmnopqrstuvwxyz0123456789+/".data

/-- Character for one sextet. -/
def base64Char (n : Nat) : Char := base64Alphabet.getD n 'A'

/-- Models `base64::encode` on a byte list (standard alphabet, `=` padding). -/
def base64Encode : List Nat → List Char
  | [] => []
  | [b0] => [base64Char (b0 / 4), base64Char (b0 % 4 * 16), '=', '=']
  | [b0, b1] =>
      [base64Char (b0 / 4), base64Char (b0 % 4 * 16 + b1 / 16),
       base64Char (b1 % 16 * 4), '=']
  | b0 :: b1 :: b2 :: rest =>
      base64Char (b0 / 4) :: base64Char (b0 % 4 * 16 + b1 / 16) ::
      base64Char (b1 % 16 * 4 + b2 / 64) :: base64Char (b2 % 64) ::
      base64Encode rest

/-- Embedding of `decode_column_to_json`, branch for branch. -/
def decode_column_to_json (row : PgRow) (i : Nat) (type_name : String) : Json :=
  match type_name with
  | "INT2" | "INT4" => optJson Json.int ((resOk (row.getInt32 i)).join)
  | "INT8" => optJson Json.int ((resOk (row.getInt64 i)).join)
  | "FLOAT4" => optJson Json.float ((resOk (row.getFloat32 i)).join)
  | "FLOAT8" => optJson Json.float ((resOk (row.getFloat64 i)).join)
  | "NUMERIC" | "DECIMAL" => optJson Json.str ((resOk (row.getStr i)).join)
  | "BOOL" => optJson Json.bool ((resOk (row.getBool i)).join)
  | "TEXT" | "VARCHAR" | "CHAR" | "BPCHAR" | "UUID" =>
      optJson Json.str ((resOk (row.getStr i)).join)
  | "BYTEA" =>
      (((resOk (row.getBytes i)).join).map
        (fun b => Json.str (String.mk (base64Encode b)))).getD Json.null
  | "JSON" | "JSONB" => ((resOk (row.getJson i)).join).getD Json.null
  | "DATE" => resultOptJson (fun d => Json.str d.repr) (row.getDate i)
  | "TIME" => resultOptJson (fun t => Json.str t.repr) (row.getTime i)
  | "TIMESTAMP" => resultOptJson (fun ts => Json.str ts.repr) (row.getTimestamp i)
  | "TIMESTAMPTZ" => resultOptJson (fun ts => Json.str ts.rfc3339) (row.getTimestamptz i)
  | "_INT4" =>
      (((resOk (row.getInt32Array i)).join).map
        (fun arr => Json.arr (arr.map Json.int))).getD Json.null
  | _ => resultJson (row.getStr i)

/-- Outcome classification of one typed getter call. -/
inductive CellStatus where
  | failed
  | nullv
  | okv
deriving DecidableEq

/-- Classifies a getter result: decode failure, SQL NULL, or decoded value. -/
def getterStatus {α : Type} : Except String (Option α) → CellStatus
  | .error _ => .failed
  | .ok none => .nullv
  | .ok (some _) => .okv

/-- Status of the one getter `decode_column_to_json` dispatches to for a given
declared type name (same dispatch, arm for arm). -/
def cellStatus (row : PgRow) (i : Nat) (type_name : String) : CellStatus :=
  match type_name with
  | "INT2" | "INT4" => getterStatus (row.getInt32 i)
  | "INT8" => getterStatus (row.getInt64 i)
  | "FLOAT4" => getterStatus (row.getFloat32 i)
  | "FLOAT8" => getterStatus (row.getFloat64 i)
  | "NUMERIC" | "DECIMAL" => getterStatus (row.getStr i)
  | "BOOL" => getterStatus (row.getBool i)
  | "TEXT" | "VARCHAR" | "CHAR" | "BPCHAR" | "UUID" => getterStatus (row.getStr i)
  | "BYTEA" => getterStatus (row.getBytes i)
  | "JSON" | "JSONB" => getterStatus (row.getJson i)
  | "DATE" => getterStatus (row.getDate i)
  | "TIME" => getterStatus (row.getTime i)
  | "TIMESTAMP" => getterStatus (row.getTimestamp i)
  | "TIMESTAMPTZ" => getterStatus (row.getTimestamptz i)
  | "_INT4" => getterStatus (row.getInt32Array i)
  | _ => getterStatus (row.getStr i)

/-- A row whose every cell fails to decode under every type. -/
def errRow : PgRow where
  getInt32 _ := .error "decode failure"
  getInt64 _ := .error "decode failure"
  getFloat32 _ := .error "decode failure"
  getFloat64 _ := .error "decode failure"
  getStr _ := .error "decode failure"
  getBool _ := .error "decode failure"
  getBytes _ := .error "decode failure"
  getJson _ := .error "decode failure"
  getDate _ := .error "decode failure"
  getTime _ := .error "decode failure"
  getTimestamp _ := .error "decode failure"
  getTimestamptz _ := .error "decode failure"
  getInt32Array _ := .error "decode failure"

/-- A row whose every cell is SQL NULL. -/
def nullRow : PgRow where
  getInt32 _ := .ok none
  getInt64 _ := .ok none
  getFloat32 _ := .ok none
  getFloat64 _ := .ok none
  getStr _ := .ok none
  getBool _ := .ok none
  getBytes _ := .ok none
  getJson _ := .ok none
  getDate _ := .ok none
  getTime _ := .ok none
  getTimestamp _ := .ok none
  getTimestamptz _ := .ok none
  getInt32Array _ := .ok none

/-- A row whose string getter yields the exact NUMERIC text of the spec's
example and whose other getters fail. -/
def numRow : PgRow :=
  { errRow with getStr := fun _ => .ok (some "123.456789012345") }

/-- Escape of one character inside a JSON string, as `serde_json` renders it. -/
def escapeJsonChar (c : Char) : String :=
  if c = '"' then "\\\""
  else if c = '\\' then "\\\\"
  else if c = '\n' then "\\n"
  else if c = '\r' then "\\r"
  else if c = '\t' then "\\t"
  else if c.toNat = 8 then "\\b"
  else if c.toNat = 12 then "\\f"
  else if c.toNat < 32 then
    "\\u00" ++ String.mk [Nat.digitChar (c.toNat / 16), Nat.digitChar (c.toNat % 16)]
  else String.mk [c]

/-- Escape of a whole JSON string body. -/
def escapeJsonString (s : String) : String :=
  s.data.foldl (fun acc c => acc ++ escapeJsonChar c) ""

/-- Compact `serde_json` rendering of the one-key object
`json!(\x7b "error": msg \x7d)`. -/
def renderErrorObj (msg : String) : String :=
  "\x7b\"error\":\"" ++ escapeJsonString msg ++ "\"\x7d"

/-- Model of `rocket`'s `status::Custom<RawJson<String>>`: a status code with
a JSON body. -/
structure CustomResponse where
  status : Nat
  body : String
deriving DecidableEq

/-- Embedding of `json_response`.  The serializable payload is represented by
the outcome of `serde_json::to_string(&data)`: `ok s` when serialization
yields `s`, `error e` when it fails with message `e`.  As in the source, the
body falls back to the rendered error object and the caller's status is used
unchanged in both cases. -/
def json_response (status : Nat) (serialized : Except String String) : CustomResponse :=
  { status := status
    body :=
      match serialized with
      | .ok s => s
      | .error e => renderErrorObj ("Serialization failed: " ++ e) }

/-- Embedding of `json_error`: serializing the freshly built error object
itself cannot fail, so the payload outcome is `ok` of its rendering. -/
def json_error (err : String) : CustomResponse :=
  json_response 500 (.ok (renderErrorObj err))

/-- Containment by a needle is inherited by any prefix of that needle. -/
lemma strContains_mono (hay n1 n2 : String) (h : n1.data <+: n2.data)
    (hc : strContains hay n2 = true) : strContains hay n1 = true := by
  unfold strContains at hc ⊢
  rw [List.any_eq_true] at hc ⊢
  obtain ⟨t, ht, hp⟩ := hc
  refine ⟨t, ht, ?_⟩
  rw [List.isPrefixOf_iff_prefix] at hp ⊢
  exact h.trans hp

/-- A getter that failed or saw NULL yields no value. -/
lemma resOk_join_none {α : Type} (x : Except String (Option α))
    (h : getterStatus x ≠ CellStatus.okv) : (resOk x).join = none := by
  rcases x with e | o
  · rfl
  · cases o with
    | none => rfl
    | some v => exact absurd rfl h

/-- Degraded getter through the `json!(r.ok().flatten())` shape. -/
lemma optJson_degraded {α : Type} (f : α → Json) (x : Except String (Option α))
    (h : getterStatus x ≠ CellStatus.okv) :
    optJson f ((resOk x).join) = Json.null := by
  rw [resOk_join_none x h]; rfl

/-- Degraded getter through the `.map(..).unwrap_or(json!(null))` shape. -/
lemma mapGetD_degraded {α : Type} (f : α → Json) (x : Except String (Option α))
    (h : getterStatus x ≠ CellStatus.okv) :
    (((resOk x).join).map f).getD Json.null = Json.null := by
  rw [resOk_join_none x h]; rfl

/-- Degraded getter through the JSON passthrough shape. -/
lemma getD_degraded (x : Except String (Option Json))
    (h : getterStatus x ≠ CellStatus.okv) :
    ((resOk x).join).getD Json.null = Json.null := by
  rw [resOk_join_none x h]; rfl

/-- Degraded getter through the date/time shape. -/
lemma resultOptJson_degraded {α : Type} (f : α → Json) (x : Except String (Option α))
    (h : getterStatus x ≠ CellStatus.okv) : resultOptJson f x = Json.null := by
  rcases x with e | o
  · rfl
  · cases o with
    | none => rfl
    | some v => exact absurd rfl h

/-- Degraded getter through the generic-text fallback shape. -/
lemma resultJson_degraded (x : Except String (Option String))
    (h : getterStatus x ≠ CellStatus.okv) : resultJson x = Json.null := by
  rcases x with e | o
  · rfl
  · cases o with
    | none => rfl
    | some v => exact absurd rfl h

/-- Any cell whose dispatched getter does not produce a value decodes to JSON
null, for every declared type name. -/
lemma decode_status_null (row : PgRow) (i : Nat) (ty : String)
    (h : cellStatus row i ty ≠ CellStatus.okv) :
    decode_column_to_json row i ty = Json.null := by
  unfold cellStatus at h
  unfold decode_column_to_json
  split at h <;>
    first
      | exact optJson_degraded _ _ h
      | exact mapGetD_degraded _ _ h
      | exact getD_degraded _ h
      | exact resultOptJson_degraded _ _ h
      | exact resultJson_degraded _ h

/-- The scanner consumes a run of word characters into the first identifier. -/
lemma scan_run1_consume (ext : List Char) :
    ∀ (acc l : List Char), ext.all isWordChar = true →
      scanA (.run1 acc) (ext ++ l) = scanA (.run1 (acc ++ ext)) l := by
  induction ext with
  | nil => intro acc l _; simp
  | cons c cs ih =>
    intro acc l hall
    simp only [List.all_cons, Bool.and_eq_true] at hall
    simp only [List.cons_append, scanA, hall.1, if_true, List.append_eq]
    rw [ih (acc ++ [c]) l hall.2]
    simp

/-- The scanner consumes a run of word characters into the second identifier. -/
lemma scan_run2_consume (ext : List Char) :
    ∀ (r1 acc l : List Char), ext.all isWordChar = true →
      scanA (.run2 r1 acc) (ext ++ l) = scanA (.run2 r1 (acc ++ ext)) l := by
  induction ext with
  | nil => intro r1 acc l _; simp
  | cons c cs ih =>
    intro r1 acc l hall
    simp only [List.all_cons, Bool.and_eq_true] at hall
    simp only [List.cons_append, scanA, hall.1, if_true, List.append_eq]
    rw [ih r1 (acc ++ [c]) l hall.2]
    simp

/-- The dot is not a word character. -/
lemma dot_not_word : isWordChar '.' = false := rfl

/-- The underscore is a word character. -/
lemma underscore_word : isWordChar '_' = true := rfl

/-- One full match step of the scan: started at a word boundary, a nonempty
word run, a dot, a nonempty word run and a trailing boundary are consumed as
one match, replaced by the flattened pair exactly when the chain is known and
kept verbatim otherwise, after which the scan proceeds behind the match. -/
lemma scan_match_step (r1 r2 rest : List Char)
    (h1 : r1 ≠ []) (hw1 : r1.all isWordChar = true)
    (h2 : r2 ≠ []) (hw2 : r2.all isWordChar = true)
    (hrest : headNotWord rest = true) :
    scanA (.idle false) (r1 ++ '.' :: (r2 ++ rest)) =
      (if isKnownChain r1 then r1 ++ '_' :: r2 else r1 ++ '.' :: r2) ++
        scanA (.idle true) rest := by
  obtain ⟨c1, r1t, rfl⟩ : ∃ c1 r1t, r1 = c1 :: r1t := by
    cases r1 with
    | nil => exact absurd rfl h1
    | cons a b => exact ⟨a, b, rfl⟩
  obtain ⟨c2, r2t, rfl⟩ : ∃ c2 r2t, r2 = c2 :: r2t := by
    cases r2 with
    | nil => exact absurd rfl h2
    | cons a b => exact ⟨a, b, rfl⟩
  simp only [List.all_cons, Bool.and_eq_true] at hw1 hw2
  simp only [List.cons_append, scanA, hw1.1, if_true, Bool.false_eq_true, if_false,
    List.append_eq]
  rw [show r1t ++ '.' :: (c2 :: (r2t ++ rest)) = r1t ++ (['.'] ++ (c2 :: (r2t ++ rest))) by simp,
    scan_run1_consume r1t ([c1]) (['.'] ++ (c2 :: (r2t ++ rest))) hw1.2]
  simp only [List.singleton_append, scanA, dot_not_word, Bool.false_eq_true, if_false,
    if_pos rfl, hw2.1, if_true, List.append_eq]
  rw [scan_run2_consume r2t (c1 :: r1t) ([c2]) rest hw2.2]
  cases rest with
  | nil =>
    simp [scanA, renderMatch]
  | cons c cs =>
    unfold headNotWord at hrest
    simp only [Bool.not_eq_true'] at hrest
    simp [scanA, hrest, renderMatch]

@[simp] lemma srcP_lit (c : Char) : srcP (.lit c) = [c] := rfl

@[simp] lemma outP_lit (c : Char) : outP (.lit c) = [c] := rfl

@[simp] lemma srcP_mtch (r1 r2 : List Char) : srcP (.mtch r1 r2) = r1 ++ '.' :: r2 := rfl

@[simp] lemma outP_mtch (r1 r2 : List Char) : outP (.mtch r1 r2) = renderMatch r1 r2 := rfl

@[simp] lemma flatSrc_nil : flatSrc [] = [] := rfl

@[simp] lemma flatSrc_cons (p : Piece) (ps : List Piece) :
    flatSrc (p :: ps) = srcP p ++ flatSrc ps := rfl

@[simp] lemma flatOut_nil : flatOut [] = [] := rfl

@[simp] lemma flatOut_cons (p : Piece) (ps : List Piece) :
    flatOut (p :: ps) = outP p ++ flatOut ps := rfl

/-- Source text of concatenated piece lists. -/
@[simp] lemma flatSrc_append : ∀ (a b : List Piece), flatSrc (a ++ b) = flatSrc a ++ flatSrc b := by
  intro a b
  induction a with
  | nil => rfl
  | cons p ps ih => simp [flatSrc, ih]

/-- Output text of concatenated piece lists. -/
@[simp] lemma flatOut_append : ∀ (a b : List Piece), flatOut (a ++ b) = flatOut a ++ flatOut b := by
  intro a b
  induction a with
  | nil => rfl
  | cons p ps ih => simp [flatOut, ih]

/-- Source text of a literal-only piece list. -/
@[simp] lemma flatSrc_lits : ∀ (l : List Char), flatSrc (l.map Piece.lit) = l := by
  intro l
  induction l with
  | nil => rfl
  | cons c cs ih => simp [flatSrc, srcP, ih]

/-- Output text of a literal-only piece list. -/
@[simp] lemma flatOut_lits : ∀ (l : List Char), flatOut (l.map Piece.lit) = l := by
  intro l
  induction l with
  | nil => rfl
  | cons c cs ih => simp [flatOut, outP, ih]

/-- The scan's rewritten text is the rendering of its piece decomposition. -/
lemma scanA_eq_flatOut_pieces : ∀ (cs : List Char) (st : ScanState),
    scanA st cs = flatOut (piecesA st cs) := by
  intro cs
  induction cs with
  | nil =>
    intro st
    cases st <;> simp [scanA, piecesA]
  | cons c cs ih =>
    intro st
    cases st with
    | idle pw =>
      by_cases hw : isWordChar c = true
      · cases pw <;> simp [scanA, piecesA, hw, ih]
      · simp only [Bool.not_eq_true] at hw
        simp [scanA, piecesA, hw, ih]
    | run1 acc =>
      by_cases hw : isWordChar c = true
      · simp [scanA, piecesA, hw, ih]
      · simp only [Bool.not_eq_true] at hw
        by_cases hd : c = '.'
        · subst hd; simp [scanA, piecesA, dot_not_word, ih]
        · simp [scanA, piecesA, hw, hd, ih]
    | dotSt r1 =>
      by_cases hw : isWordChar c = true
      · simp [scanA, piecesA, hw, ih]
      · simp only [Bool.not_eq_true] at hw
        simp [scanA, piecesA, hw, ih]
    | run2 r1 acc =>
      by_cases hw : isWordChar c = true
      · simp [scanA, piecesA, hw, ih]
      · simp only [Bool.not_eq_true] at hw
        simp [scanA, piecesA, hw, ih]

/-- The piece decomposition reconstructs the already-consumed state source
followed by the remaining input. -/
lemma pieces_src : ∀ (cs : List Char) (st : ScanState),
    flatSrc (piecesA st cs) = stateSrc st ++ cs := by
  intro cs
  induction cs with
  | nil =>
    intro st
    cases st <;> simp [piecesA, stateSrc]
  | cons c cs ih =>
    intro st
    cases st with
    | idle pw =>
      by_cases hw : isWordChar c = true
      · cases pw <;> simp [piecesA, hw, stateSrc, ih]
      · simp only [Bool.not_eq_true] at hw
        simp [piecesA, hw, stateSrc, ih]
    | run1 acc =>
      by_cases hw : isWordChar c = true
      · simp [piecesA, hw, stateSrc, ih]
      · simp only [Bool.not_eq_true] at hw
        by_cases hd : c = '.'
        · subst hd; simp [piecesA, dot_not_word, stateSrc, ih]
        · simp [piecesA, hw, hd, stateSrc, ih]
    | dotSt r1 =>
      by_cases hw : isWordChar c = true
      · simp [piecesA, hw, stateSrc, ih]
      · simp only [Bool.not_eq_true] at hw
        simp [piecesA, hw, stateSrc, ih]
    | run2 r1 acc =>
      by_cases hw : isWordChar c = true
      · simp [piecesA, hw, stateSrc, ih]
      · simp only [Bool.not_eq_true] at hw
        simp [piecesA, hw, stateSrc, ih]

/-- Output and source of a match differ only in the one separator character. -/
lemma renderMatch_length (r1 r2 : List Char) :
    (renderMatch r1 r2).length = r1.length + 1 + r2.length := by
  unfold renderMatch
  split <;> simp <;> omega

/-- Pointwise relation between a source text and its rewriting: equal
everywhere except that single dots may have become underscores. -/
inductive DotRel : List Char → List Char → Prop where
  | nil : DotRel [] []
  | same (c : Char) {xs ys : List Char} : DotRel xs ys → DotRel (c :: xs) (c :: ys)
  | swap {xs ys : List Char} : DotRel xs ys → DotRel ('.' :: xs) ('_' :: ys)

/-- Every list is `DotRel`-related to itself. -/
lemma dotRel_refl : ∀ (l : List Char), DotRel l l := by
  intro l
  induction l with
  | nil => exact .nil
  | cons c cs ih => exact .same c ih

/-- `DotRel` is preserved by prepending a common prefix. -/
lemma dotRel_append_left : ∀ (l a b : List Char), DotRel a b → DotRel (l ++ a) (l ++ b) := by
  intro l a b h
  induction l with
  | nil => exact h
  | cons c cs ih => exact .same c ih

/-- Related lists have equal length. -/
lemma dotRel_length {a b : List Char} (h : DotRel a b) : a.length = b.length := by
  induction h with
  | nil => rfl
  | same c _ ih => simp [ih]
  | swap _ ih => simp [ih]

/-- Positionwise content of related lists: equal characters, or a source dot
made an underscore. -/
lemma dotRel_get {a b : List Char} (h : DotRel a b) :
    ∀ i : Nat, b.get? i = a.get? i ∨ (a.get? i = some '.' ∧ b.get? i = some '_') := by
  induction h with
  | nil => intro i; left; rfl
  | same c _ ih =>
    intro i
    cases i with
    | zero => left; rfl
    | succ j => simpa using ih j
  | swap _ ih =>
    intro i
    cases i with
    | zero => right; exact ⟨rfl, rfl⟩
    | succ j => simpa using ih j

/-- The rendering of a piece list is `DotRel`-related to its source text. -/
lemma pieces_dotRel : ∀ (ps : List Piece), DotRel (flatSrc ps) (flatOut ps) := by
  intro ps
  induction ps with
  | nil => exact .nil
  | cons p ps ih =>
    cases p with
    | lit c => exact .same c ih
    | mtch r1 r2 =>
      show DotRel ((r1 ++ '.' :: r2) ++ flatSrc ps) (renderMatch r1 r2 ++ flatOut ps)
      unfold renderMatch
      split
      · rw [List.append_assoc, List.append_assoc, List.cons_append, List.cons_append]
        exact dotRel_append_left r1 _ _ (.swap (dotRel_append_left r2 _ _ ih))
      · rw [List.append_assoc, List.append_assoc, List.cons_append, List.cons_append]
        exact dotRel_append_left r1 _ _ (.same '.' (dotRel_append_left r2 _ _ ih))

/-- The whole input is related to the rewriter's output. -/
lemma flatten_dotRel (s : String) :
    DotRel s.data (flatten_known_chain_tables s).data := by
  have h1 := pieces_src s.data (.idle false)
  have h2 := scanA_eq_flatOut_pieces s.data (.idle false)
  show DotRel s.data (scanA (.idle false) s.data)
  rw [h2]
  conv_lhs => rw [show s.data = stateSrc (.idle false) ++ s.data from rfl, ← h1]
  exact pieces_dotRel _

/-- The rewriter never changes the length of the statement. -/
lemma flatten_length (s : String) :
    (flatten_known_chain_tables s).length = s.length := by
  have h := dotRel_length (flatten_dotRel s)
  show (flatten_known_chain_tables s).data.length = s.data.length
  exact h.symm

/-- The character at the end of a known-length prefix. -/
lemma get_append_len : ∀ (a : List Char) (ch : Char) (x : List Char),
    (a ++ ch :: x).get? a.length = some ch := by
  intro a ch x
  induction a with
  | nil => rfl
  | cons c cs ih => simpa using ih

/-- Every recorded match really occurs in the source text at its recorded
position: the text from that position on starts with `chain ++ dot ++ table`. -/
lemma matches_src_content : ∀ (ps : List Piece) (p i : Nat) (c t : List Char),
    (i, c, t) ∈ matchesOfPieces p ps →
    ∃ pre rest, flatSrc ps = pre ++ (c ++ '.' :: t) ++ rest ∧ p + pre.length = i := by
  intro ps
  induction ps with
  | nil => intro p i c t hm; simp [matchesOfPieces] at hm
  | cons pc ps ih =>
    intro p i c t hm
    cases pc with
    | lit ch =>
      simp only [matchesOfPieces] at hm
      obtain ⟨pre, rest, heq, hlen⟩ := ih (p + 1) i c t hm
      refine ⟨ch :: pre, rest, ?_, ?_⟩
      · simp [flatSrc, srcP, heq]
      · simp only [List.length_cons]
        omega
    | mtch r1 r2 =>
      simp only [matchesOfPieces, List.mem_cons] at hm
      rcases hm with heq | hm
      · obtain ⟨hi, hc, ht⟩ : i = p ∧ c = r1 ∧ t = r2 := by
          have h1 := congrArg Prod.fst heq
          have h2 := congrArg (fun q => q.snd.fst) heq
          have h3 := congrArg (fun q => q.snd.snd) heq
          exact ⟨h1, h2, h3⟩
        subst hi; subst hc; subst ht
        exact ⟨[], flatSrc ps, by simp [flatSrc, srcP], by simp⟩
      · obtain ⟨pre, rest, heq2, hlen⟩ := ih _ i c t hm
        refine ⟨(r1 ++ '.' :: r2) ++ pre, rest, ?_, ?_⟩
        · simp [flatSrc, srcP, heq2]
        · simp only [List.length_append, List.length_cons]
          omega

/-- Every recorded match with a known chain has been rewritten in the output:
at the position just past the chain the output carries an underscore. -/
lemma matches_out_content : ∀ (ps : List Piece) (p i : Nat) (c t : List Char),
    (i, c, t) ∈ matchesOfPieces p ps → isKnownChain c = true →
    ∃ pre rest, flatOut ps = pre ++ (c ++ '_' :: t) ++ rest ∧ p + pre.length = i := by
  intro ps
  induction ps with
  | nil => intro p i c t hm _; simp [matchesOfPieces] at hm
  | cons pc ps ih =>
    intro p i c t hm hk
    cases pc with
    | lit ch =>
      simp only [matchesOfPieces] at hm
      obtain ⟨pre, rest, heq, hlen⟩ := ih (p + 1) i c t hm hk
      refine ⟨ch :: pre, rest, ?_, ?_⟩
      · simp [flatOut, outP, heq]
      · simp only [List.length_cons]
        omega
    | mtch r1 r2 =>
      simp only [matchesOfPieces, List.mem_cons] at hm
      rcases hm with heq | hm
      · obtain ⟨hi, hc, ht⟩ : i = p ∧ c = r1 ∧ t = r2 := by
          have h1 := congrArg Prod.fst heq
          have h2 := congrArg (fun q => q.snd.fst) heq
          have h3 := congrArg (fun q => q.snd.snd) heq
          exact ⟨h1, h2, h3⟩
        subst hi; subst hc; subst ht
        refine ⟨[], flatOut ps, ?_, by simp⟩
        simp [flatOut, outP, renderMatch, hk]
      · obtain ⟨pre, rest, heq2, hlen⟩ := ih _ i c t hm hk
        refine ⟨renderMatch r1 r2 ++ pre, rest, ?_, ?_⟩
        · simp [flatOut, outP, heq2]
        · simp only [List.length_append, renderMatch_length]
          omega

/-- A scan all of whose matches have unknown chains leaves the text verbatim. -/
lemma no_known_verbatim : ∀ (ps : List Piece) (p : Nat),
    (∀ m ∈ matchesOfPieces p ps, isKnownChain m.2.1 = false) →
    flatOut ps = flatSrc ps := by
  intro ps
  induction ps with
  | nil => intro p _; rfl
  | cons pc ps ih =>
    intro p hall
    cases pc with
    | lit ch =>
      have := ih (p + 1) (fun m hm => hall m hm)
      simp [this]
    | mtch r1 r2 =>
      have hhead : isKnownChain r1 = false :=
        hall (p, r1, r2) (List.mem_cons_self _ _)
      have htail := ih (p + (r1.length + 1 + r2.length))
        (fun m hm => hall m (List.mem_cons_of_mem _ hm))
      simp [renderMatch, hhead, htail]

/-- C1: the claim states that `is_query_only` returns false for every
statement containing a denylisted substring case-insensitively, and in
particular false on both current_database() probes and on
"DELETE FROM eth.blocks".  Evaluating the embedded source: the two
current_database() probes do return false (the lowercase denylist entries can
never match the uppercased statement), but "DELETE FROM eth.blocks" returns
true — the source returns the blacklist-containment test itself, without the
negation the contract describes.  This theorem records the code's actual
values at the claim's inputs; the last conjunct contradicts the claim. -/
theorem is_query_only_eval_at_claim_inputs :
    is_query_only "select current_database()" = false ∧
    is_query_only "SELECT CURRENT_DATABASE()" = false ∧
    is_query_only "DELETE FROM eth.blocks" = true := by
  refine ⟨?_, ?_, ?_⟩ <;> decide

/-- C2 counterexample: the claim says a serialization failure produces an
internal-error status code regardless of the status the caller passed; on the
embedded source, a failing payload with caller status 200 keeps status 200,
which is not the internal-error code 500. -/
theorem json_response_keeps_caller_status_cex :
    (json_response 200 (.error "boom")).status = 200 ∧ (200 : Nat) ≠ 500 :=
  ⟨rfl, by decide⟩

/-- C2 (amended): when serialization of the payload fails, the envelope body
is the rendered JSON error object carrying the serialization error message,
and the status code is the one the caller passed in, unchanged. -/
theorem json_response_failure_body_substituted (status : Nat) (e : String) :
    (json_response status (.error e)).body =
        renderErrorObj ("Serialization failed: " ++ e) ∧
    (json_response status (.error e)).status = status :=
  ⟨rfl, rfl⟩

/-- C3: a match of the rewriter's pattern — a nonempty word run starting at a
word boundary, a dot, a nonempty word run followed by a boundary — is replaced
by the flattened pair exactly when the left identifier is one of the known
chain namespaces (case-sensitive equality) and kept verbatim otherwise, with
the scan resuming after the match; moreover the two spec examples rewrite
every eth.blocks to eth_blocks and leave the unknown-namespace query
unchanged. -/
theorem flatten_rewrites_known_chain_matches :
    (∀ r1 r2 rest : List Char, r1 ≠ [] → r1.all isWordChar = true →
      r2 ≠ [] → r2.all isWordChar = true → headNotWord rest = true →
      scanA (.idle false) (r1 ++ '.' :: (r2 ++ rest)) =
        (if isKnownChain r1 then r1 ++ '_' :: r2 else r1 ++ '.' :: r2) ++
          scanA (.idle true) rest) ∧
    flatten_known_chain_tables "SELECT * FROM eth.blocks WHERE eth.blocks.id = 1" =
      "SELECT * FROM eth_blocks WHERE eth_blocks.id = 1" ∧
    flatten_known_chain_tables "SELECT * FROM foo.bar" = "SELECT * FROM foo.bar" :=
  ⟨fun r1 r2 rest h1 hw1 h2 hw2 hr => scan_match_step r1 r2 rest h1 hw1 h2 hw2 hr,
   by decide, by decide⟩

/-- C3 witness: the general component applied to the concrete match eth.x at
the start of the input. -/
theorem flatten_rewrites_witness :
    scanA (.idle false) (['e', 't', 'h'] ++ '.' :: (['x'] ++ [])) =
      (if isKnownChain ['e', 't', 'h'] then ['e', 't', 'h'] ++ '_' :: ['x']
       else ['e', 't', 'h'] ++ '.' :: ['x']) ++ scanA (.idle true) [] :=
  flatten_rewrites_known_chain_matches.1 ['e', 't', 'h'] ['x'] []
    (by decide) (by decide) (by decide) (by decide) (by decide)

/-- C4: for every column index and every declared wire type name (the default
arm included), the decoder yields JSON null whenever the getter it dispatches
to reports a decode failure or SQL NULL; no failure propagates out of the
cell. -/
theorem decode_null_on_null_or_failed (row : PgRow) (i : Nat) (ty : String)
    (h : cellStatus row i ty = CellStatus.failed ∨
         cellStatus row i ty = CellStatus.nullv) :
    decode_column_to_json row i ty = Json.null :=
  decode_status_null row i ty (by rcases h with h | h <;> simp [h])

/-- C4 witness: a NULL JSONB cell decodes to JSON null. -/
theorem decode_null_witness :
    (cellStatus nullRow 0 "JSONB" = CellStatus.failed ∨
     cellStatus nullRow 0 "JSONB" = CellStatus.nullv) ∧
    decode_column_to_json nullRow 0 "JSONB" = Json.null :=
  ⟨Or.inr rfl, decode_null_on_null_or_failed nullRow 0 "JSONB" (Or.inr rfl)⟩

/-- C5: the claim states that `is_query_only` returns true for statements
containing no denylisted substring, in particular on
"SELECT * FROM eth.blocks".  The embedded source returns false there (no
blacklist entry matches, and the containment test is returned un-negated),
contradicting the claim. -/
theorem is_query_only_eval_clean_select :
    is_query_only "SELECT * FROM eth.blocks" = false := by decide

/-- C6: if every match the rewriter's scan finds in its output was already a
match (same position, same identifiers) of the input — no newly introduced
dotted identifier pair — then applying the rewriter to its own output returns
that output unchanged. -/
theorem flatten_idempotent_of_no_new_matches (s : String)
    (H : ∀ m ∈ matchList (flatten_known_chain_tables s), m ∈ matchList s) :
    flatten_known_chain_tables (flatten_known_chain_tables s) =
      flatten_known_chain_tables s := by
  have hunk : ∀ m ∈ matchList (flatten_known_chain_tables s),
      isKnownChain m.2.1 = false := by
    intro m hm
    by_contra hk
    simp only [Bool.not_eq_false] at hk
    obtain ⟨i, c, tt⟩ := m
    obtain ⟨pre1, rest1, he1, hl1⟩ := matches_src_content _ 0 i c tt hm
    rw [pieces_src (flatten_known_chain_tables s).data (.idle false)] at he1
    obtain ⟨pre2, rest2, he2, hl2⟩ := matches_out_content _ 0 i c tt (H _ hm) hk
    rw [← scanA_eq_flatOut_pieces s.data (.idle false)] at he2
    have he2' : (flatten_known_chain_tables s).data =
        pre2 ++ (c ++ '_' :: tt) ++ rest2 := he2
    have he1' : (flatten_known_chain_tables s).data =
        pre1 ++ (c ++ '.' :: tt) ++ rest1 := he1
    have hdot : (flatten_known_chain_tables s).data.get? (i + c.length) = some '.' := by
      rw [he1', show pre1 ++ (c ++ '.' :: tt) ++ rest1 =
        (pre1 ++ c) ++ '.' :: (tt ++ rest1) by simp,
        show i + c.length = (pre1 ++ c).length by simp; omega]
      exact get_append_len _ _ _
    have hund : (flatten_known_chain_tables s).data.get? (i + c.length) = some '_' := by
      rw [he2', show pre2 ++ (c ++ '_' :: tt) ++ rest2 =
        (pre2 ++ c) ++ '_' :: (tt ++ rest2) by simp,
        show i + c.length = (pre2 ++ c).length by simp; omega]
      exact get_append_len _ _ _
    rw [hdot] at hund
    exact absurd (Option.some.inj hund) (by decide)
  have hverb := no_known_verbatim
    (piecesA (.idle false) (flatten_known_chain_tables s).data) 0 hunk
  show String.mk (scanA (.idle false) (flatten_known_chain_tables s).data) = _
  rw [scanA_eq_flatOut_pieces, hverb,
    pieces_src (flatten_known_chain_tables s).data (.idle false)]
  rfl

/-- C6 witness: the rewriter's output for the spec's example contains no
dotted pair at all, so the hypothesis holds and re-application is the
identity. -/
theorem flatten_idempotent_witness :
    flatten_known_chain_tables (flatten_known_chain_tables "SELECT * FROM eth.blocks") =
      flatten_known_chain_tables "SELECT * FROM eth.blocks" :=
  flatten_idempotent_of_no_new_matches "SELECT * FROM eth.blocks" (by decide)

/-- C7: a non-NULL NUMERIC or DECIMAL cell decodes to the exact decimal text
the driver delivered, as a JSON string, with no floating-point conversion. -/
theorem decode_numeric_exact_text (row : PgRow) (i : Nat) (s : String)
    (h : row.getStr i = Except.ok (some s)) :
    decode_column_to_json row i "NUMERIC" = Json.str s ∧
    decode_column_to_json row i "DECIMAL" = Json.str s := by
  refine ⟨?_, ?_⟩ <;>
    · show optJson Json.str ((resOk (row.getStr i)).join) = Json.str s
      rw [h]
      rfl

/-- C7 witness: the spec's exact decimal text round-trips unchanged. -/
theorem decode_numeric_witness :
    numRow.getStr 0 = Except.ok (some "123.456789012345") ∧
    decode_column_to_json numRow 0 "NUMERIC" = Json.str "123.456789012345" ∧
    decode_column_to_json numRow 0 "DECIMAL" = Json.str "123.456789012345" :=
  ⟨rfl, (decode_numeric_exact_text numRow 0 _ rfl).1,
    (decode_numeric_exact_text numRow 0 _ rfl).2⟩

/-- C8: the embedded core is total with defined fallbacks: the rewriter is
defined on every input (its regex is the fixed valid pattern embedded as the
scanner, and the output always has the input's length), every failed cell
decode reaches the JSON-null fallback for every type name, and both boolean
classifiers are total. -/
theorem core_total_with_defined_fallbacks :
    (∀ s : String, (flatten_known_chain_tables s).length = s.length) ∧
    (∀ (row : PgRow) (i : Nat) (ty : String),
      cellStatus row i ty = CellStatus.failed →
      decode_column_to_json row i ty = Json.null) ∧
    (∀ sql : String, is_query_only sql = true ∨ is_query_only sql = false) ∧
    (∀ q : String, is_sui_rpc_query q = true ∨ is_sui_rpc_query q = false) :=
  ⟨flatten_length,
   fun row i ty h => decode_status_null row i ty (by simp [h]),
   fun sql => by cases h : is_query_only sql
                 · exact Or.inr rfl
                 · exact Or.inl rfl,
   fun q => by cases h : is_sui_rpc_query q
               · exact Or.inr rfl
               · exact Or.inl rfl⟩

/-- C8 witness: length preservation on a concrete statement and the null
fallback on a concretely failing BYTEA cell. -/
theorem core_total_witness :
    (flatten_known_chain_tables "SELECT 1").length = ("SELECT 1" : String).length ∧
    cellStatus errRow 0 "BYTEA" = CellStatus.failed ∧
    decode_column_to_json errRow 0 "BYTEA" = Json.null :=
  ⟨core_total_with_defined_fallbacks.1 "SELECT 1", rfl,
   core_total_with_defined_fallbacks.2.1 errRow 0 "BYTEA" rfl⟩

/-- C9: the three-marker classifier equals the single-marker one on every
query: "SUITEST" and "SUIDEV" are redundant because any text containing them
contains "SUI". -/
theorem is_sui_rpc_single_marker_equiv : ∀ q : String,
    is_sui_rpc_query q = is_sui_rpc_single q := by
  intro q
  show (["SUI", "SUITEST", "SUIDEV"].any
      (fun target => strContains (toUpperStr q) target)) =
    strContains (toUpperStr q) "SUI"
  have hpT : ("SUI" : String).data <+: ("SUITEST" : String).data :=
    List.isPrefixOf_iff_prefix.mp (by decide)
  have hpD : ("SUI" : String).data <+: ("SUIDEV" : String).data :=
    List.isPrefixOf_iff_prefix.mp (by decide)
  simp only [List.any_cons, List.any_nil, Bool.or_false]
  cases h1 : strContains (toUpperStr q) "SUI" with
  | true => simp
  | false =>
    cases h2 : strContains (toUpperStr q) "SUITEST" with
    | true => exact absurd (strContains_mono _ _ _ hpT h2) (by simp [h1])
    | false =>
      cases h3 : strContains (toUpperStr q) "SUIDEV" with
      | true => exact absurd (strContains_mono _ _ _ hpD h3) (by simp [h1])
      | false => simp

/-- C10: the rewriter's output has exactly the input's length, and each
position is either unchanged or is an input dot turned into an underscore. -/
theorem flatten_output_same_length_dot_swaps (s : String) :
    (flatten_known_chain_tables s).length = s.length ∧
    ∀ i : Nat, (flatten_known_chain_tables s).data.get? i = s.data.get? i ∨
      (s.data.get? i = some '.' ∧
       (flatten_known_chain_tables s).data.get? i = some '_') :=
  ⟨flatten_length s, dotRel_get (flatten_dotRel s)⟩
